import Mathlib

/-!
Verification of the `StyledProcessor` stage of the linaria react package
(`packages/react/src/processors/styled.ts`) together with the interpolation
validator `throwIfInvalid`.  The TypeScript source is shallowly embedded:
class fields become an explicit state record, methods become functions from
state to value-and-state, and JavaScript values reached by the validator are
modelled by an inductive type.
-/

namespace Styled

/-! ### Component descriptor (`WrappedNode` in the source)

`WrappedNode = string | { node: Identifier; nonLinaria?: true; source: string }`.
A plain string is either an intrinsic tag name or the sentinel
`"FunctionalComponent"`; the object form keeps the identifier name, the source
text and the optional `nonLinaria` flag. -/
inductive WrappedNode where
  | tag (s : String)
  | ref (nodeName : String) (source : String) (nonLinaria : Bool)
  deriving DecidableEq, Repr

/-! ### The custom variable-name generator (`options.variableNameSlug`)

The source builds an `IVariableContext` whose `index` field is a getter that
post-increments the processor's `#variableIdx` each time it is read.  The
generator (a user function, or a template handed to `buildSlug`) may read that
getter any number of times; a template spread reads it exactly once.  We model
the generator by the number of `index` reads it performs and by its output as a
function of the plain context fields and of the sequence of index values it
observed.  An empty output string models a falsy (`undefined` or `""`) result. -/
structure CustomGen where
  indexReads : Nat
  out : String → String → String → List Nat → String

/-- The per-instance immutable data of a `StyledProcessor`: identity fields
inherited from the base matcher, the resolved component, and the relevant
options. -/
structure Processor where
  slug : String
  displayName : String
  className : String
  component : WrappedNode
  variableNameSlug : Option CustomGen

/-- One entry of `this.interpolations` (pushed by `addInterpolation`). -/
structure InterpRecord (Expr : Type) where
  id : String
  node : Expr
  source : String
  unit : String

/-- The mutable fields of a processor instance: `#variableIdx`,
`#variablesCache` (a `Map` from `source + unit` to the allocated id; the first
matching binding of the association list is the current one) and the
`interpolations` list. -/
structure ProcState (Expr : Type) where
  variableIdx : Nat
  variablesCache : List (String × String)
  interpolations : List (InterpRecord Expr)

/-- The fresh state a processor starts with. -/
def ProcState.init (Expr : Type) : ProcState Expr :=
  { variableIdx := 0, variablesCache := [], interpolations := [] }

/-- Modelled from the spec: the external CSS-identifier sanitizer
`toValidCSSIdentifier` of `@wyw-in-js/processor-utils` (listed as an external
collaborator); it replaces every character outside
`[-_a-z0-9 -￿]` (case-insensitive) with `_`. -/
def toValidCSSIdentifier (s : String) : String :=
  s.map fun c =>
    if c.isAlphanum || c = '-' || c = '_' || (0xA0 ≤ c.toNat && c.toNat ≤ 0xFFFF)
    then c else '_'

/-- `StyledProcessor.getCustomVariableId`: builds a variable context (the
`index` getter is lazy, so building alone has no side effect) and invokes the
configured generator, which consumes `indexReads` consecutive counter values;
returns `none` when no generator is configured or when its result is falsy.
The state component carries the counter advanced by the generator's reads. -/
def getCustomVariableId {Expr : Type} (p : Processor) (st : ProcState Expr)
    (source unit precedingCss : String) : Option String × ProcState Expr :=
  match p.variableNameSlug with
  | none => (none, st)
  | some g =>
      let idxs := (List.range g.indexReads).map (st.variableIdx + ·)
      let st' := { st with variableIdx := st.variableIdx + g.indexReads }
      let r := g.out source unit precedingCss idxs
      (if r = "" then none else some r, st')

/-- The id written on the default branch: `` `${this.slug}-${context.index}` ``. -/
def mkId (slug : String) (i : Nat) : String :=
  slug ++ "-" ++ Nat.repr i

/-- `StyledProcessor.getVariableId`: cache key is `source + unit`; a hit
returns the cached id unchanged; a miss first tries the custom generator
(whose non-falsy result is sanitized and returned without caching), otherwise
reads `context.index` once (post-increment) and caches `` `${slug}-${index}` ``. -/
def getVariableId {Expr : Type} (p : Processor) (st : ProcState Expr)
    (source unit precedingCss : String) : String × ProcState Expr :=
  let value := source ++ unit
  match st.variablesCache.lookup value with
  | some id => (id, st)
  | none =>
      match getCustomVariableId p st source unit precedingCss with
      | (some id, st1) => (toValidCSSIdentifier id, st1)
      | (none, st1) =>
          let i := st1.variableIdx
          (mkId p.slug i,
           { st1 with
              variableIdx := i + 1,
              variablesCache := (value, mkId p.slug i) :: st1.variablesCache })

/-- `StyledProcessor.addInterpolation`: allocates an id and appends the record. -/
def addInterpolation {Expr : Type} (p : Processor) (st : ProcState Expr)
    (node : Expr) (precedingCss source unit : String) : String × ProcState Expr :=
  let r := getVariableId p st source unit precedingCss
  (r.1, { r.2 with
            interpolations :=
              r.2.interpolations ++ [⟨r.1, node, source, unit⟩] })

/-- Runs a list of `(source, unit, precedingCss)` allocation requests in
order, collecting the returned ids. -/
def runAllocs {Expr : Type} (p : Processor) :
    ProcState Expr → List (String × String × String) → List String × ProcState Expr
  | st, [] => ([], st)
  | st, (s, u, c) :: rest =>
      let r := getVariableId p st s u c
      let rec' := runAllocs p r.2 rest
      (r.1 :: rec'.1, rec'.2)

/-- Invariant of the default allocator: every cached id is `` `${slug}-${i}` ``
for some counter value `i` already consumed, and distinct keys hold distinct
ids. -/
def CacheInv {Expr : Type} (p : Processor) (st : ProcState Expr) : Prop :=
  (∀ k v, st.variablesCache.lookup k = some v →
     ∃ i, i < st.variableIdx ∧ v = mkId p.slug i) ∧
  (∀ k1 v1 k2 v2, st.variablesCache.lookup k1 = some v1 →
     st.variablesCache.lookup k2 = some v2 → k1 ≠ k2 → v1 ≠ v2)

/-- A concrete processor instance (default allocator, `styled.div`). -/
def sampleProcessor : Processor :=
  { slug := "s", displayName := "Styled1", className := "abc",
    component := WrappedNode.tag "div", variableNameSlug := none }

/-! ### Syntax-tree expressions produced by the code generator

Only the constructors the processor builds are modelled: identifiers,
zero-or-more-argument call expressions, plain and single-quoted string
literals (`singleQuotedStringLiteral` in the source builds a literal with a
single-quoted `raw`), and the empty arrow function
`t.arrowFunctionExpression([], t.blockStatement([]))`. -/
inductive Expr where
  | ident (name : String)
  | callExpr (callee : Expr) (args : List Expr)
  | strLit (s : String)
  | singleQuotedStrLit (s : String)
  | arrowFnEmpty

/-- Modelled from the spec: the HTML element names of the external
`react-html-attributes` data (`html.elements.html`), a representative sample
of "the fixed set of known intrinsic element names". -/
def htmlElements : List String :=
  ["a", "abbr", "address", "area", "article", "aside", "audio", "b", "body",
   "br", "button", "canvas", "caption", "code", "col", "div", "em", "embed",
   "fieldset", "figure", "footer", "form", "h1", "h2", "h3", "h4", "h5", "h6",
   "head", "header", "hr", "html", "i", "iframe", "img", "input", "label",
   "legend", "li", "main", "map", "mark", "menu", "meta", "nav", "object",
   "ol", "option", "p", "picture", "pre", "progress", "section", "select",
   "small", "source", "span", "strong", "style", "table", "tbody", "td",
   "textarea", "tfoot", "th", "thead", "title", "tr", "ul", "video"]

/-- Modelled from the spec: the SVG element names of the external
`react-html-attributes` data (`html.elements.svg`), a representative sample. -/
def svgElements : List String :=
  ["svg", "circle", "clipPath", "defs", "ellipse", "g", "image", "line",
   "linearGradient", "marker", "mask", "path", "pattern", "polygon",
   "polyline", "radialGradient", "rect", "stop", "symbol", "text", "tspan",
   "use"]

/-- An element of the JavaScript `Set` built on line 37.  The source reads
`new Set([...html.elements.html, html.elements.svg])`: the HTML names are
spread into the set one by one, but the SVG name *array* is inserted as a
single element (the spread is missing), so the set holds strings plus one
array value. -/
inductive TagSetElem where
  | strElem (s : String)
  | arrElem (l : List String)
  deriving DecidableEq, Repr

/-- `allTagsSet` from line 37 of the source, with the missing spread on the
SVG list reproduced faithfully. -/
def allTagsSet : List TagSetElem :=
  htmlElements.map TagSetElem.strElem ++ [TagSetElem.arrElem svgElements]

/-- `allTagsSet.has(component)` for a string component; `Set.has` uses
SameValueZero equality, under which a string never equals the array element. -/
def allTagsSetHas (s : String) : Bool :=
  allTagsSet.contains (TagSetElem.strElem s)

/-- The properties object built by `StyledProcessor.getProps` (`IProps`);
`cls` models the `class` field. -/
structure IProps where
  name : String
  cls : String
  propsAsIs : Bool
  vars : Option (List (String × List Expr))

/-- JavaScript object-keyed assignment `o[k] = v`: replaces the binding when
the key exists, otherwise appends it (insertion order preserved). -/
def objSet {α : Type} (m : List (String × α)) (k : String) (v : α) :
    List (String × α) :=
  if m.any (fun p => p.1 == k) then
    m.map (fun p => if p.1 == k then (k, v) else p)
  else m ++ [(k, v)]

/-- The 1–2 element array stored in `vars` for one interpolation record: the
zero-argument call of the recorded expression, then the unit string when the
unit is non-empty (`if (unit) items.push(...)`). -/
def interpolationItems (r : InterpRecord Expr) : List Expr :=
  [Expr.callExpr r.node []] ++ (if r.unit ≠ "" then [Expr.strLit r.unit] else [])

/-- `StyledProcessor.getProps`: `name`, `class`, `propsAsIs`
(`typeof this.component !== 'string' || !allTagsSet.has(this.component)`),
and `vars` present only when at least one interpolation was recorded, built
by object-keyed assignment over the records in order. -/
def getProps (p : Processor) (st : ProcState Expr) : IProps :=
  { name := p.displayName,
    cls := p.className,
    propsAsIs :=
      match p.component with
      | .tag s => !(allTagsSetHas s)
      | .ref _ _ _ => true,
    vars :=
      if st.interpolations.isEmpty then none
      else some (st.interpolations.foldl
        (fun m r => objSet m r.id (interpolationItems r)) []) }

/-- `StyledProcessor.tagExpressionArgument`: the argument handed to the
runtime wrapper call — an empty arrow function for the
`"FunctionalComponent"` sentinel, a single-quoted string literal for any
other plain string, and a zero-argument call of the identifier for a
component reference. -/
def tagExpressionArgument : WrappedNode → Expr
  | .tag s =>
      if s = "FunctionalComponent" then Expr.arrowFnEmpty
      else Expr.singleQuotedStrLit s
  | .ref nodeName _ _ => Expr.callExpr (Expr.ident nodeName) []

/-- `StyledProcessor.toString`: renders
`` `${this.tagSourceCode()}(${arg})`…`` `` where `arg` is `"() => {…}"` for
the sentinel, a quoted literal for other plain strings, and the original
source text for references; `tagSourceCode` comes from the base class and is
passed as a parameter. -/
def toStringDescr (tagSourceCode : String) (w : WrappedNode) : String :=
  let res := fun (arg : String) => tagSourceCode ++ "(" ++ arg ++ ")`…`"
  match w with
  | .tag s =>
      if s = "FunctionalComponent" then res "() => \x7b…\x7d"
      else res ("\x27" ++ s ++ "\x27")
  | .ref _ source _ => res source

/-! ### Component identity resolution (constructor, lines 91–175)

The external collaborators (`findPackageJSON`, manifest reading/parsing,
`resolve.sync`, `minimatch`, path joining) are supplied as an environment of
pure functions; `resolve` returns `none` where `resolveSync` would throw. -/
structure ResolveEnv where
  selfPkg : Option String
  pkgFor : String → Option String
  maskOf : String → Option String
  fullMask : String → String → String
  resolve : String → Option String
  matchesMask : String → String → Bool

/-- The body of the `value.importedFrom.some(...)` callback for one import
source: returns `(matched, warned)`.  A manifest equal to the importing
file's own manifest with no mask means "all components are styled"; with a
truthy mask, the import is resolved and tested against the mask, and a
resolution failure warns and counts as **not** matched (`return false` in the
`catch`). -/
def checkImportSource (env : ResolveEnv) (f : String) : Bool × Bool :=
  match env.pkgFor f <|> env.selfPkg with
  | none => (false, false)
  | some pkg =>
      if env.selfPkg = some pkg ∧ env.maskOf pkg = none then (true, false)
      else
        match env.maskOf pkg with
        | some m =>
            if m ≠ "" then
              match env.resolve f with
              | some file => (env.matchesMask file (env.fullMask pkg m), false)
              | none => (false, true)
            else (false, false)
        | none => (false, false)

/-- `Array.prototype.some` over the import sources, short-circuiting on the
first match; also collects which sources warned. -/
def someMatched (env : ResolveEnv) : List String → Bool × List String
  | [] => (false, [])
  | f :: rest =>
      let r := checkImportSource env f
      let warns := if r.2 then [f] else []
      if r.1 then (true, warns)
      else
        let r' := someMatched env rest
        (r'.1, warns ++ r'.2)

/-- The compile-time value kind of the single argument of `styled(...)`
(`ValueType.FUNCTION`, `ValueType.CONST`, or any other evaluated value with
its identifier, source text and import-source list). -/
inductive TagOpArg where
  | functionKind
  | constStr (s : String)
  | constOther
  | importedKind (exName : String) (source : String) (importedFrom : List String)

/-- The operation applied to the callee: `styled.<tag>` or `styled(<arg>)`. -/
inductive TagOp where
  | member (tag : String)
  | call (arg : TagOpArg)

/-- Outcome of the constructor's component resolution: the descriptor (`none`
models the fatal `Invalid usage of \`styled\` tag` error), the import sources
that produced an unresolved-import warning, and whether the referenced value
was registered in `this.dependencies`. -/
structure ResolveResult where
  component : Option WrappedNode
  warnings : List String
  dependencyPushed : Bool
  deriving DecidableEq, Repr

/-- Lines 91–175 of the constructor: member access gives an intrinsic tag,
a function-kind argument gives the `"FunctionalComponent"` sentinel string, a
constant gives its string value (or fails when not a string), and an imported
identifier is matched against the allow-masks of its import sources — when no
source matches, the reference is marked `nonLinaria` (foreign) and no
dependency is registered. -/
def resolveComponent (env : ResolveEnv) : TagOp → ResolveResult
  | .member tag => ⟨some (.tag tag), [], false⟩
  | .call arg =>
      match arg with
      | .functionKind => ⟨some (.tag "FunctionalComponent"), [], false⟩
      | .constStr s => ⟨some (.tag s), [], false⟩
      | .constOther => ⟨none, [], false⟩
      | .importedKind ex src imps =>
          if imps.isEmpty then ⟨some (.ref ex src false), [], true⟩
          else
            let r := someMatched env imps
            if r.1 then ⟨some (.ref ex src false), r.2, true⟩
            else ⟨some (.ref ex src true), r.2, false⟩

/-- An environment with no manifests and a failing resolver. -/
def emptyEnv : ResolveEnv :=
  { selfPkg := none, pkgFor := fun _ => none, maskOf := fun _ => none,
    fullMask := fun _ m => m, resolve := fun _ => none,
    matchesMask := fun _ _ => false }

/-- A concrete environment in which the imported package declares an
allow-mask and module resolution fails. -/
def failingResolveEnv : ResolveEnv :=
  { selfPkg := some "/app/package.json",
    pkgFor := fun f => if f = "ui-lib" then some "/lib/package.json" else none,
    maskOf := fun p => if p = "/lib/package.json" then some "dist/**" else none,
    fullMask := fun _ m => m,
    resolve := fun _ => none,
    matchesMask := fun _ _ => false }

/-! ### Rule extraction (`extractRules`, lines 262–291)

The evaluated-value table and the object graph it points into are modelled as
a heap: a value is `null` (covering `undefined` and other meta-less values)
or a reference into the heap; an object optionally carries
`__wyw_meta = {className, extends}` where `extends` is itself a value.
`hasEvalMeta` of the `@wyw-in-js/shared` collaborator checks for that
metadata. -/
inductive GraphVal where
  | null
  | ref (r : Nat)
  deriving DecidableEq, Repr

/-- A heap object: `meta` is the optional `__wyw_meta` pair. -/
structure HeapObj where
  meta : Option (String × GraphVal)
  deriving DecidableEq, Repr

/-- `hasEvalMeta(value)` together with the metadata read: `some` exactly when
the value references an object carrying `__wyw_meta`. -/
def metaOf (heap : List (Nat × HeapObj)) : GraphVal → Option (String × GraphVal)
  | .null => none
  | .ref r => (heap.lookup r).bind (fun o => o.meta)

/-- The `while (hasEvalMeta(value))` loop of `extractRules`, with explicit
fuel: each iteration appends `"." + className` and follows `extends`;
exhausted fuel (`none`) models divergence of the unbounded source loop. -/
def walkChain (heap : List (Nat × HeapObj)) :
    Nat → GraphVal → String → Option String
  | 0, _, _ => none
  | fuel + 1, v, sel =>
      match metaOf heap v with
      | none => some sel
      | some (cn, ext) => walkChain heap fuel ext (sel ++ "." ++ cn)

/-- The class-name chain hanging off a value: `some cs` when the `extends`
chain reaches a meta-less value within the given fuel. -/
def chainOf (heap : List (Nat × HeapObj)) : Nat → GraphVal → Option (List String)
  | 0, _ => none
  | fuel + 1, v =>
      match metaOf heap v with
      | none => some []
      | some (cn, ext) => (chainOf heap fuel ext).map (cn :: ·)

/-- One `"." + className` segment per chain link, in order. -/
def joinDots : List String → String
  | [] => ""
  | c :: cs => "." ++ c ++ joinDots cs

/-- The heap references the chain walk visits (each carrying metadata). -/
def chainRefs (heap : List (Nat × HeapObj)) : Nat → GraphVal → List Nat
  | 0, _ => []
  | fuel + 1, v =>
      match v with
      | .null => []
      | .ref r =>
          match (heap.lookup r).bind (fun o => o.meta) with
          | none => []
          | some (_, ext) => r :: chainRefs heap fuel ext

/-- Acyclicity of the extends-chain metadata reachable from `v`: the walk
never revisits a reference within `heap.length + 1` steps (enough, by
pigeonhole, to cover every chain). -/
def AcyclicChain (heap : List (Nat × HeapObj)) (v : GraphVal) : Prop :=
  (chainRefs heap (heap.length + 1) v).Nodup

/-- One CSS rule as produced by `extractRules` (`start` models
`loc?.start ?? null` as an optional line/column pair). -/
structure Rule where
  cssText : String
  className : String
  displayName : String
  start : Option (Nat × Nat)
  deriving DecidableEq, Repr

/-- `StyledProcessor.extractRules`: the selector starts at `"." + className`;
for a non-foreign component reference the evaluated value of the referenced
identifier is chain-walked, all other descriptors contribute no chain.  The
result is the one-entry rule map keyed by the final selector, `none` when the
source's unbounded loop would not terminate. -/
def extractRules (p : Processor) (valueCache : String → GraphVal)
    (heap : List (Nat × HeapObj)) (cssText : String)
    (loc : Option (Nat × Nat)) : Option (List (String × Rule)) :=
  let selector := "." ++ p.className
  let value : GraphVal :=
    match p.component with
    | .tag _ => .null
    | .ref nodeName _ nonLinaria =>
        if nonLinaria then .null else valueCache nodeName
  (walkChain heap (heap.length + 1) value selector).map
    (fun sel =>
      [(sel, { cssText := cssText, className := p.className,
               displayName := p.displayName, start := loc })])

/-- A three-level chain: the object at `0` is the base component `A`
(class `a`, extends `null`), the object at `1` is `styled(A)` (class `b`,
extends the value of `A`). -/
def chainHeapABC : List (Nat × HeapObj) :=
  [(0, ⟨some ("a", GraphVal.null)⟩), (1, ⟨some ("b", GraphVal.ref 0)⟩)]

/-- The evaluated-value table of the scenario: identifier `B` holds the
`styled(A)` component value. -/
def chainCacheABC : String → GraphVal :=
  fun n => if n = "B" then GraphVal.ref 1 else GraphVal.null

/-- The outer `styled(styled(A))` processor of the scenario, class `c`,
wrapping the identifier `B`. -/
def outerProcessorC : Processor :=
  { slug := "s", displayName := "StyledC", className := "c",
    component := WrappedNode.ref "B" "B" false, variableNameSlug := none }

/-! ### The interpolation validator (`throwIfInvalid`)

JavaScript values reaching the validator are modelled inductively; numbers
distinguish `NaN`, the infinities and finite values; objects are association
lists of fields.  The external `isSerializable` predicate is a parameter. -/
inductive JSNum where
  | nan
  | inf (pos : Bool)
  | finite (q : Int)
  deriving DecidableEq, Repr

inductive JSValue where
  | func
  | str (s : String)
  | num (n : JSNum)
  | boolV (b : Bool)
  | undefinedV
  | nullV
  | obj (fields : List (String × JSValue))

/-- `typeof value`. -/
def jsTypeof : JSValue → String
  | .func => "function"
  | .str _ => "string"
  | .num _ => "number"
  | .boolV _ => "boolean"
  | .undefinedV => "undefined"
  | .nullV => "object"
  | .obj _ => "object"

/-- JavaScript truthiness. -/
def truthy : JSValue → Bool
  | .func => true
  | .str s => s ≠ ""
  | .num .nan => false
  | .num (.inf _) => true
  | .num (.finite q) => q ≠ 0
  | .boolV b => b
  | .undefinedV => false
  | .nullV => false
  | .obj _ => true

/-- `Number.isFinite(value)` (only ever consulted under
`typeof value === 'number'`). -/
def numIsFinite : JSValue → Bool
  | .num (.finite _) => true
  | _ => false

/-- Property access `value.k`: a field of an object, `undefined` otherwise
(no property the validator reads exists on the modelled primitives). -/
def getProp (v : JSValue) (k : String) : JSValue :=
  match v with
  | .obj fields =>
      match fields.lookup k with
      | some w => w
      | none => .undefinedV
  | _ => .undefinedV

/-- `String(value)` for the non-object values the failure message renders. -/
def jsToString : JSValue → String
  | .func => "function () \x7b\x7d"
  | .str s => s
  | .num .nan => "NaN"
  | .num (.inf true) => "Infinity"
  | .num (.inf false) => "-Infinity"
  | .num (.finite q) => toString q
  | .boolV true => "true"
  | .boolV false => "false"
  | .undefinedV => "undefined"
  | .nullV => "null"
  | .obj _ => "[object Object]"

/-- Modelled from the spec: the external `JSON.stringify`, simplified (no
escaping); only its existence matters to the claims. -/
def jsonStringify : JSValue → String
  | .func => "undefined"
  | .str s => "\"" ++ s ++ "\""
  | .num .nan => "null"
  | .num (.inf _) => "null"
  | .num (.finite q) => toString q
  | .boolV true => "true"
  | .boolV false => "false"
  | .undefinedV => "undefined"
  | .nullV => "null"
  | .obj _ => "\x7b…\x7d"

/-- Outcome of `throwIfInvalid`: acceptance, the duck-typed evaluation-error
rethrow (carrying the full built message), or the invalid-interpolation error
(carrying the stringified value). -/
inductive ValidationResult where
  | ok
  | evaluationError (message : String)
  | invalidInterpolationError (stringified : String)
  deriving DecidableEq, Repr

/-- The text wrapped around the underlying message of an error-like value. -/
def evalErrorText (m : String) : String :=
  "An error occurred when evaluating the expression: " ++ m ++
    ". Make sure you are not using a browser or Node specific API."

/-- `throwIfInvalid(value, ex)`: accepts functions, strings, finite numbers
and values the external `isSerializable` predicate recognizes; otherwise a
truthy non-number value with truthy `stack` and `message` fields is rethrown
as an evaluation error including that message, and anything else fails with
the stringified value. -/
def throwIfInvalid (isSerializable : JSValue → Bool) (value : JSValue) :
    ValidationResult :=
  if jsTypeof value = "function" ∨ jsTypeof value = "string" ∨
      (jsTypeof value = "number" ∧ numIsFinite value = true) ∨
      isSerializable value = true then
    .ok
  else if truthy value ∧ jsTypeof value ≠ "number" ∧
      truthy (getProp value "stack") ∧ truthy (getProp value "message") then
    .evaluationError (evalErrorText (jsToString (getProp value "message")))
  else
    .invalidInterpolationError
      (if jsTypeof value = "object" then jsonStringify value
       else jsToString value)

/-! ### Injectivity of the decimal rendering used by `mkId` -/

/-- Decimal decoding of a character list, most significant digit first. -/
def decDigits : List Char → Nat → Nat
  | [], acc => acc
  | c :: cs, acc => decDigits cs (acc * 10 + (c.toNat - 48))

theorem decDigits_append (l1 l2 : List Char) (acc : Nat) :
    decDigits (l1 ++ l2) acc = decDigits l2 (decDigits l1 acc) := by
  induction l1 generalizing acc with
  | nil => rfl
  | cons c cs ih => simp [decDigits, ih]

theorem digitChar_toNat (n : Nat) (h : n < 10) :
    (Nat.digitChar n).toNat = 48 + n := by
  interval_cases n <;> rfl

theorem toDigitsCore_append (fuel n : Nat) (ds : List Char) :
    Nat.toDigitsCore 10 fuel n ds = Nat.toDigitsCore 10 fuel n [] ++ ds := by
  induction fuel generalizing n ds with
  | zero => simp [Nat.toDigitsCore]
  | succ f ih =>
      simp only [Nat.toDigitsCore]
      by_cases h : n / 10 = 0
      · simp [h]
      · simp only [if_neg h]
        rw [ih (n / 10) (Nat.digitChar (n % 10) :: ds),
            ih (n / 10) [Nat.digitChar (n % 10)], List.append_assoc]
        rfl

theorem toDigitsCore_decode (fuel : Nat) : ∀ n, n < fuel → ∀ acc,
    decDigits (Nat.toDigitsCore 10 fuel n []) acc =
      acc * 10 ^ (Nat.toDigitsCore 10 fuel n []).length + n := by
  induction fuel with
  | zero => intro n h; omega
  | succ f ih =>
      intro n h acc
      simp only [Nat.toDigitsCore]
      by_cases h0 : n / 10 = 0
      · have hn : n < 10 := by omega
        have hmod : n % 10 = n := Nat.mod_eq_of_lt hn
        simp only [h0, if_pos, decDigits, hmod, digitChar_toNat n hn,
          List.length_cons, List.length_nil]
        have hpow : (10:Nat) ^ (0 + 1) = 10 := by norm_num
        rw [hpow]
        omega
      · have hd : n / 10 < f := by omega
        simp only [if_neg h0]
        rw [toDigitsCore_append f (n / 10) [Nat.digitChar (n % 10)],
            decDigits_append, ih (n / 10) hd acc]
        have hm : n % 10 < 10 := by omega
        simp only [decDigits, digitChar_toNat (n % 10) hm, List.length_append,
          List.length_cons, List.length_nil, Nat.zero_add]
        have h48 : ∀ x : Nat, x * 10 + (48 + n % 10 - 48) = x * 10 + n % 10 := by
          intro x; omega
        rw [h48, Nat.pow_succ]
        have hring : (acc * 10 ^ (Nat.toDigitsCore 10 f (n / 10) []).length + n / 10) * 10
              + n % 10
            = acc * (10 ^ (Nat.toDigitsCore 10 f (n / 10) []).length * 10)
              + (n / 10 * 10 + n % 10) := by ring
        rw [hring]
        omega

theorem natRepr_injective : Function.Injective Nat.repr := by
  intro m n h
  have hm := toDigitsCore_decode (m + 1) m (Nat.lt_succ_self m) 0
  have hn := toDigitsCore_decode (n + 1) n (Nat.lt_succ_self n) 0
  simp only [Nat.zero_mul, Nat.zero_add] at hm hn
  have hdata : (Nat.toDigits 10 m) = (Nat.toDigits 10 n) := by
    have h2 : (Nat.repr m).data = (Nat.repr n).data := by rw [h]
    simpa [Nat.repr, List.asString] using h2
  simp only [Nat.toDigits] at hdata
  rw [hdata] at hm
  omega

theorem mkId_injective (slug : String) : Function.Injective (mkId slug) := by
  intro i j h
  apply natRepr_injective
  apply String.ext
  have hd : (mkId slug i).data = (mkId slug j).data := by rw [h]
  simp only [mkId, String.data_append] at hd
  exact List.append_cancel_left hd

/-! ### Behaviour of `getVariableId` on hits and misses -/

theorem getVariableId_hit {Expr : Type} (p : Processor) (st : ProcState Expr)
    (s u c id : String) (h : st.variablesCache.lookup (s ++ u) = some id) :
    getVariableId p st s u c = (id, st) := by
  simp [getVariableId, h]

theorem getVariableId_default_miss {Expr : Type} (p : Processor) (st : ProcState Expr)
    (s u c : String) (hgen : p.variableNameSlug = none)
    (hmiss : st.variablesCache.lookup (s ++ u) = none) :
    getVariableId p st s u c =
      (mkId p.slug st.variableIdx,
       { st with
          variableIdx := st.variableIdx + 1,
          variablesCache :=
            (s ++ u, mkId p.slug st.variableIdx) :: st.variablesCache }) := by
  simp [getVariableId, hmiss, getCustomVariableId, hgen]

/-- After any allocation without a custom generator, the key is cached and maps
to the returned id. -/
theorem getVariableId_cached {Expr : Type} (p : Processor) (st : ProcState Expr)
    (s u c : String) (hgen : p.variableNameSlug = none) :
    (getVariableId p st s u c).2.variablesCache.lookup (s ++ u)
      = some (getVariableId p st s u c).1 := by
  cases h : st.variablesCache.lookup (s ++ u) with
  | some id => rw [getVariableId_hit p st s u c id h]; exact h
  | none =>
      rw [getVariableId_default_miss p st s u c hgen h]
      simp [List.lookup]

theorem lookup_cons_ne {β : Type} (a k : String) (v : β) (l : List (String × β))
    (h : ¬a = k) : ((k, v) :: l).lookup a = l.lookup a := by
  rw [List.lookup_cons]
  simp [beq_false_of_ne h]

/-- Existing cache bindings survive any allocation (the cache is insert-only
and a key is inserted only when absent). -/
theorem getVariableId_preserves {Expr : Type} (p : Processor) (st : ProcState Expr)
    (s u c k v : String) (hk : st.variablesCache.lookup k = some v) :
    (getVariableId p st s u c).2.variablesCache.lookup k = some v := by
  cases h : st.variablesCache.lookup (s ++ u) with
  | some id => rw [getVariableId_hit p st s u c id h]; exact hk
  | none =>
      simp only [getVariableId, h]
      cases hc : getCustomVariableId p st s u c with
      | mk cid st1 =>
          have hcache : st1.variablesCache = st.variablesCache := by
            cases hg : p.variableNameSlug with
            | none => simp [getCustomVariableId, hg] at hc; rw [← hc.2]
            | some g =>
                simp [getCustomVariableId, hg] at hc
                rw [← hc.2]
          cases cid with
          | some id => simpa [hcache] using hk
          | none =>
              have hkne : ¬(k = s ++ u) := fun he => by
                rw [he, h] at hk; exact Option.noConfusion hk
              dsimp only
              rw [lookup_cons_ne k (s ++ u) _ _ hkne, hcache]
              exact hk

theorem runAllocs_preserves {Expr : Type} (p : Processor)
    (reqs : List (String × String × String)) :
    ∀ (st : ProcState Expr) (k v : String),
    st.variablesCache.lookup k = some v →
    (runAllocs p st reqs).2.variablesCache.lookup k = some v := by
  induction reqs with
  | nil => intro st k v hk; exact hk
  | cons r rest ih =>
      intro st k v hk
      obtain ⟨s, u, c⟩ := r
      simp only [runAllocs]
      exact ih _ k v (getVariableId_preserves p st s u c k v hk)

theorem cacheInv_init {Expr : Type} (p : Processor) :
    CacheInv p (ProcState.init Expr) := by
  constructor
  · intro k v hk; simp [ProcState.init, List.lookup] at hk
  · intro k1 v1 k2 v2 h1; simp [ProcState.init, List.lookup] at h1

theorem cacheInv_step {Expr : Type} (p : Processor) (st : ProcState Expr)
    (s u c : String) (hgen : p.variableNameSlug = none) (hInv : CacheInv p st) :
    CacheInv p (getVariableId p st s u c).2 := by
  cases h : st.variablesCache.lookup (s ++ u) with
  | some id => rw [getVariableId_hit p st s u c id h]; exact hInv
  | none =>
      rw [getVariableId_default_miss p st s u c hgen h]
      obtain ⟨hInv1, hInv2⟩ := hInv
      dsimp only
      constructor
      · intro k v hk
        by_cases hke : k = s ++ u
        · subst hke
          rw [List.lookup_cons_self] at hk
          exact ⟨st.variableIdx, Nat.lt_succ_self _, (Option.some.injEq _ _ ▸ hk).symm⟩
        · rw [lookup_cons_ne k (s ++ u) _ _ hke] at hk
          obtain ⟨i, hi, hv⟩ := hInv1 k v hk
          exact ⟨i, Nat.lt_succ_of_lt hi, hv⟩
      · intro k1 v1 k2 v2 h1 h2 hne
        by_cases hk1 : k1 = s ++ u
        · subst hk1
          rw [List.lookup_cons_self] at h1
          have hv1 : v1 = mkId p.slug st.variableIdx := (Option.some.injEq _ _ ▸ h1).symm
          have hk2 : ¬(k2 = s ++ u) := fun he => hne (by rw [he])
          rw [lookup_cons_ne k2 (s ++ u) _ _ hk2] at h2
          obtain ⟨i, hi, hv⟩ := hInv1 k2 v2 h2
          rw [hv1, hv]
          intro hcon
          exact absurd (mkId_injective p.slug hcon) (by omega)
        · rw [lookup_cons_ne k1 (s ++ u) _ _ hk1] at h1
          by_cases hk2 : k2 = s ++ u
          · subst hk2
            rw [List.lookup_cons_self] at h2
            have hv2 : v2 = mkId p.slug st.variableIdx := (Option.some.injEq _ _ ▸ h2).symm
            obtain ⟨i, hi, hv⟩ := hInv1 k1 v1 h1
            rw [hv2, hv]
            intro hcon
            exact absurd (mkId_injective p.slug hcon) (by omega)
          · rw [lookup_cons_ne k2 (s ++ u) _ _ hk2] at h2
            exact hInv2 k1 v1 k2 v2 h1 h2 hne

theorem cacheInv_run {Expr : Type} (p : Processor)
    (reqs : List (String × String × String)) :
    ∀ (st : ProcState Expr), p.variableNameSlug = none → CacheInv p st →
    CacheInv p (runAllocs p st reqs).2 := by
  induction reqs with
  | nil => intro st _ hInv; exact hInv
  | cons r rest ih =>
      intro st hgen hInv
      obtain ⟨s, u, c⟩ := r
      simp only [runAllocs]
      exact ih _ hgen (cacheInv_step p st s u c hgen hInv)

/-- C1 counterexample: the cache key is the concatenation `source + unit`, so
the distinct pairs `("a", "b")` and `("ab", "")` share the key `"ab"` and the
allocator returns the same id for both, refuting pairwise distinctness of ids
for distinct pairs. -/
theorem C1_counterexample_concat_collision :
    (("a" : String), ("b" : String)) ≠ (("ab" : String), ("" : String)) ∧
    (getVariableId sampleProcessor (ProcState.init Unit) "a" "b" "").1
      = (getVariableId sampleProcessor
          (getVariableId sampleProcessor (ProcState.init Unit) "a" "b" "").2
          "ab" "" "").1 := by
  exact ⟨by decide, by decide⟩

/-- C1 (amended): on one processor instance with the default allocator, any
two `(source, unit)` pairs whose concatenations `source ++ unit` differ are
given distinct ids — even with arbitrary further allocations in between — and
the monotonic counter value used for an id is never reused (each cached id
uses a counter value strictly below the current counter, `CacheInv`). -/
theorem C1_amended_distinct_keys_distinct_ids {Expr : Type} (p : Processor)
    (st : ProcState Expr) (hgen : p.variableNameSlug = none) (hInv : CacheInv p st)
    (s1 u1 c1 s2 u2 c2 : String) (mid : List (String × String × String))
    (hne : s1 ++ u1 ≠ s2 ++ u2) :
    (getVariableId p (runAllocs p (getVariableId p st s1 u1 c1).2 mid).2 s2 u2 c2).1
      ≠ (getVariableId p st s1 u1 c1).1 := by
  have hc1 : (getVariableId p st s1 u1 c1).2.variablesCache.lookup (s1 ++ u1)
      = some (getVariableId p st s1 u1 c1).1 :=
    getVariableId_cached p st s1 u1 c1 hgen
  have hcM := runAllocs_preserves p mid _ _ _ hc1
  have hInvM : CacheInv p (runAllocs p (getVariableId p st s1 u1 c1).2 mid).2 :=
    cacheInv_run p mid _ hgen (cacheInv_step p st s1 u1 c1 hgen hInv)
  cases h2 : (runAllocs p (getVariableId p st s1 u1 c1).2 mid).2.variablesCache.lookup
      (s2 ++ u2) with
  | some id2 =>
      rw [getVariableId_hit p _ s2 u2 c2 id2 h2]
      exact hInvM.2 (s2 ++ u2) id2 (s1 ++ u1) _ h2 hcM (fun he => hne he.symm)
  | none =>
      rw [getVariableId_default_miss p _ s2 u2 c2 hgen h2]
      obtain ⟨i, hi, hv⟩ := hInvM.1 (s1 ++ u1) _ hcM
      dsimp only
      rw [hv]
      intro hcon
      exact absurd (mkId_injective p.slug hcon) (by omega)

/-- Witness for the amended C1 at a concrete instance. -/
theorem C1_amended_distinct_keys_distinct_ids_witness :
    (getVariableId sampleProcessor
        (runAllocs sampleProcessor
          (getVariableId sampleProcessor (ProcState.init Unit) "a" "" "").2
          [("q", "px", "")]).2 "b" "" "").1
      ≠ (getVariableId sampleProcessor (ProcState.init Unit) "a" "" "").1 :=
  C1_amended_distinct_keys_distinct_ids sampleProcessor (ProcState.init Unit)
    rfl (cacheInv_init sampleProcessor) "a" "" "" "b" "" "" [("q", "px", "")]
    (by decide)

/-- C5: with the default allocator, a `(source, unit)` pair requested again on
the same instance — with arbitrary other allocations in between — receives the
identical id, the value cached by the first allocation. -/
theorem C5_idempotent_allocation {Expr : Type} (p : Processor)
    (st : ProcState Expr) (hgen : p.variableNameSlug = none) (s u c1 c2 : String)
    (mid : List (String × String × String)) :
    (getVariableId p (runAllocs p (getVariableId p st s u c1).2 mid).2 s u c2).1
      = (getVariableId p st s u c1).1 := by
  have hc := getVariableId_cached p st s u c1 hgen
  have hcM := runAllocs_preserves p mid _ _ _ hc
  rw [getVariableId_hit p _ s u c2 _ hcM]

/-- Witness for C5 at a concrete instance. -/
theorem C5_idempotent_allocation_witness :
    (getVariableId sampleProcessor
        (runAllocs sampleProcessor
          (getVariableId sampleProcessor (ProcState.init Unit) "a" "px" "").2
          [("q", "", "")]).2 "a" "px" "").1
      = (getVariableId sampleProcessor (ProcState.init Unit) "a" "px" "").1 :=
  C5_idempotent_allocation sampleProcessor (ProcState.init Unit) rfl
    "a" "px" "" "" [("q", "", "")]

/-- C7: on a cache miss, a configured custom generator yielding a non-empty
string makes the allocator return its sanitized (`toValidCSSIdentifier`) value
without touching the cache, the counter advancing only by the number of lazy
`index` reads the generator performed (zero reads ⇒ counter untouched); an
allocation that reaches the default branch consumes exactly one counter
value. -/
theorem C7_custom_generator_lazy {Expr : Type} (p pd : Processor)
    (st : ProcState Expr) (g : CustomGen) (s u c : String)
    (hgen : p.variableNameSlug = some g)
    (hmiss : st.variablesCache.lookup (s ++ u) = none)
    (hout : g.out s u c ((List.range g.indexReads).map (st.variableIdx + ·)) ≠ "")
    (hd : pd.variableNameSlug = none) :
    (getVariableId p st s u c).1
        = toValidCSSIdentifier
            (g.out s u c ((List.range g.indexReads).map (st.variableIdx + ·)))
      ∧ (getVariableId p st s u c).2.variablesCache = st.variablesCache
      ∧ (getVariableId p st s u c).2.variableIdx = st.variableIdx + g.indexReads
      ∧ (getVariableId pd st s u c).2.variableIdx = st.variableIdx + 1 := by
  have hcustom : getCustomVariableId p st s u c =
      (some (g.out s u c ((List.range g.indexReads).map (st.variableIdx + ·))),
       { st with variableIdx := st.variableIdx + g.indexReads }) := by
    simp [getCustomVariableId, hgen, hout]
  refine ⟨?_, ?_, ?_, ?_⟩
  · simp [getVariableId, hmiss, hcustom]
  · simp [getVariableId, hmiss, hcustom]
  · simp [getVariableId, hmiss, hcustom]
  · rw [getVariableId_default_miss pd st s u c hd hmiss]

/-- Witness for C7: a generator that reads the index zero times and returns
`"a b"`; the result is sanitized to `"a_b"`, nothing is cached, the counter is
untouched on the custom branch and advances by one on the default branch. -/
theorem C7_custom_generator_lazy_witness :
    (getVariableId
        { slug := "s", displayName := "Styled1", className := "abc",
          component := WrappedNode.tag "div",
          variableNameSlug := some ⟨0, fun s u _ _ => s ++ u⟩ }
        (ProcState.init Unit) "a " "b" "").1
        = toValidCSSIdentifier
            ((⟨0, fun s u _ _ => s ++ u⟩ : CustomGen).out "a " "b" ""
              ((List.range 0).map ((ProcState.init Unit).variableIdx + ·)))
      ∧ (getVariableId
          { slug := "s", displayName := "Styled1", className := "abc",
            component := WrappedNode.tag "div",
            variableNameSlug := some ⟨0, fun s u _ _ => s ++ u⟩ }
          (ProcState.init Unit) "a " "b" "").2.variablesCache
          = (ProcState.init Unit).variablesCache
      ∧ (getVariableId
          { slug := "s", displayName := "Styled1", className := "abc",
            component := WrappedNode.tag "div",
            variableNameSlug := some ⟨0, fun s u _ _ => s ++ u⟩ }
          (ProcState.init Unit) "a " "b" "").2.variableIdx
          = (ProcState.init Unit).variableIdx + 0
      ∧ (getVariableId sampleProcessor (ProcState.init Unit) "a " "b" "").2.variableIdx
          = (ProcState.init Unit).variableIdx + 1 :=
  C7_custom_generator_lazy
    { slug := "s", displayName := "Styled1", className := "abc",
      component := WrappedNode.tag "div",
      variableNameSlug := some ⟨0, fun s u _ _ => s ++ u⟩ }
    sampleProcessor (ProcState.init Unit) ⟨0, fun s u _ _ => s ++ u⟩
    "a " "b" "" rfl rfl (by decide) rfl

/-! ### Object-assignment lemmas for the `vars` mapping -/

theorem lookup_map_ne {α : Type} (m : List (String × α)) (k k' : String) (v : α)
    (h : ¬k' = k) :
    (m.map (fun p => if p.1 == k then (k, v) else p)).lookup k' = m.lookup k' := by
  induction m with
  | nil => rfl
  | cons a m ih =>
      obtain ⟨a1, b⟩ := a
      by_cases ha : a1 = k
      · subst ha
        simp only [List.map_cons, beq_self_eq_true, if_true]
        rw [lookup_cons_ne k' a1 _ _ h, lookup_cons_ne k' a1 _ _ h]
        exact ih
      · simp only [List.map_cons, beq_false_of_ne ha, Bool.false_eq_true,
          if_false]
        by_cases hk : k' = a1
        · subst hk; rw [List.lookup_cons_self, List.lookup_cons_self]
        · rw [lookup_cons_ne k' a1 _ _ hk, lookup_cons_ne k' a1 _ _ hk]
          exact ih

theorem lookup_map_self {α : Type} (m : List (String × α)) (k : String) (v : α)
    (h : m.any (fun p => p.1 == k) = true) :
    (m.map (fun p => if p.1 == k then (k, v) else p)).lookup k = some v := by
  induction m with
  | nil => simp at h
  | cons a m ih =>
      obtain ⟨a1, b⟩ := a
      by_cases ha : a1 = k
      · subst ha
        simp only [List.map_cons, beq_self_eq_true, if_true]
        exact List.lookup_cons_self
      · simp only [List.map_cons, beq_false_of_ne ha, Bool.false_eq_true,
          if_false]
        have h' : m.any (fun p => p.1 == k) = true := by
          simp only [List.any_cons, beq_false_of_ne ha, Bool.false_or] at h
          exact h
        rw [lookup_cons_ne k a1 _ _ (fun he => ha he.symm)]
        exact ih h'

theorem lookup_none_of_any_false {α : Type} (m : List (String × α)) (k : String)
    (h : m.any (fun p => p.1 == k) = false) : m.lookup k = none := by
  induction m with
  | nil => rfl
  | cons a m ih =>
      obtain ⟨a1, b⟩ := a
      simp only [List.any_cons, Bool.or_eq_false_iff] at h
      have ha : ¬a1 = k := by
        intro he; rw [he] at h; simp at h
      rw [lookup_cons_ne k a1 _ _ (fun he => ha he.symm)]
      exact ih h.2

theorem objSet_lookup {α : Type} (m : List (String × α)) (k k' : String) (v : α) :
    (objSet m k v).lookup k' = if k' = k then some v else m.lookup k' := by
  by_cases hany : m.any (fun p => p.1 == k) = true
  · rw [objSet, if_pos hany]
    by_cases hk : k' = k
    · subst hk; rw [if_pos rfl]; exact lookup_map_self m k' v hany
    · rw [if_neg hk]; exact lookup_map_ne m k k' v hk
  · have hany' : m.any (fun p => p.1 == k) = false :=
      Bool.eq_false_iff.mpr hany
    rw [objSet, if_neg hany, List.lookup_append]
    by_cases hk : k' = k
    · subst hk
      rw [lookup_none_of_any_false m k' hany', if_pos rfl]
      simp [List.lookup_cons_self]
    · rw [if_neg hk, lookup_cons_ne k' k v [] hk]
      simp

theorem foldl_objSet_lookup (rs : List (InterpRecord Expr)) :
    ∀ (m : List (String × List Expr)) (id : String) (items : List Expr),
      (rs.foldl (fun m r => objSet m r.id (interpolationItems r)) m).lookup id
          = some items →
      (∃ r, r ∈ rs ∧ r.id = id ∧ items = interpolationItems r)
        ∨ m.lookup id = some items := by
  induction rs with
  | nil => intro m id items h; exact Or.inr h
  | cons r rs ih =>
      intro m id items h
      simp only [List.foldl_cons] at h
      rcases ih _ id items h with h1 | h2
      · obtain ⟨r', hr', hid, hit⟩ := h1
        exact Or.inl ⟨r', List.mem_cons_of_mem r hr', hid, hit⟩
      · rw [objSet_lookup] at h2
        by_cases hk : id = r.id
        · rw [if_pos hk] at h2
          exact Or.inl ⟨r, List.mem_cons_self r rs, hk.symm,
            (Option.some.injEq _ _ ▸ h2).symm⟩
        · rw [if_neg hk] at h2
          exact Or.inr h2

/-- C8: the runtime `vars` mapping is present exactly when at least one
interpolation was recorded; every entry maps an id to the 1–2 element
sequence `[call(expression)] ++ [unit if non-empty]` of one of the recorded
interpolations; and two interpolations recorded with identical source text
and unit share one id, producing exactly one `vars` entry. -/
theorem C8_runtime_vars (p : Processor) (st : ProcState Expr) :
    ((getProps p st).vars = none ↔ st.interpolations = [])
    ∧ (∀ m id items, (getProps p st).vars = some m → m.lookup id = some items →
        ∃ r, r ∈ st.interpolations ∧ r.id = id ∧
          items = Expr.callExpr r.node []
              :: (if r.unit ≠ "" then [Expr.strLit r.unit] else []))
    ∧ ((addInterpolation sampleProcessor (ProcState.init Expr)
          (Expr.ident "x") "" "fn1" "px").1
        = (addInterpolation sampleProcessor
            (addInterpolation sampleProcessor (ProcState.init Expr)
              (Expr.ident "x") "" "fn1" "px").2
            (Expr.ident "y") "" "fn1" "px").1
      ∧ (getProps sampleProcessor
          (addInterpolation sampleProcessor
            (addInterpolation sampleProcessor (ProcState.init Expr)
              (Expr.ident "x") "" "fn1" "px").2
            (Expr.ident "y") "" "fn1" "px").2).vars
          = some [("s-0", [Expr.callExpr (Expr.ident "y") [],
                           Expr.strLit "px"])]) := by
  refine ⟨⟨?_, ?_⟩, ?_, rfl, rfl⟩
  · intro h
    by_cases he : st.interpolations.isEmpty
    · exact List.isEmpty_iff.mp he
    · exact absurd h (by simp [getProps, he])
  · intro h
    simp [getProps, h]
  · intro m id items hm hl
    have hne : st.interpolations.isEmpty = false := by
      by_cases he : st.interpolations.isEmpty
      · exact absurd hm (by simp [getProps, he])
      · exact Bool.eq_false_iff.mpr he
    have hmval : m = st.interpolations.foldl
        (fun m r => objSet m r.id (interpolationItems r)) [] := by
      have := hm
      simp [getProps, hne] at this
      exact this.symm
    subst hmval
    rcases foldl_objSet_lookup st.interpolations [] id items hl with h1 | h2
    · obtain ⟨r, hr, hid, hit⟩ := h1
      exact ⟨r, hr, hid, by simpa [interpolationItems] using hit⟩
    · exact absurd h2 (by simp)

/-- Witness for C8: a fresh instance has recorded no interpolation, so `vars`
is absent. -/
theorem C8_runtime_vars_witness :
    (getProps sampleProcessor (ProcState.init Expr)).vars = none :=
  (C8_runtime_vars sampleProcessor (ProcState.init Expr)).1.mpr rfl

/-- C3 code-bug evidence: because line 37 spreads only the HTML list and adds
the SVG name array as a single set element, the SVG tag `circle` — a member
of the known SVG element names, absent from the HTML names — yields
`propsAsIs = true`, while the claim (and spec §4.5) requires `false` for
every known HTML/SVG intrinsic tag.  The remaining conjuncts confirm the
surrounding behaviour the claim states: `styled.div` gives `false`;
references and the functional-component sentinel give `true`. -/
theorem C3_svg_tag_props_as_is :
    (getProps { sampleProcessor with component := WrappedNode.tag "circle" }
        (ProcState.init Expr)).propsAsIs = true
    ∧ "circle" ∈ svgElements
    ∧ "circle" ∉ htmlElements
    ∧ (getProps sampleProcessor (ProcState.init Expr)).propsAsIs = false
    ∧ (getProps { sampleProcessor with
          component := WrappedNode.ref "Other" "Other" true }
        (ProcState.init Expr)).propsAsIs = true
    ∧ (getProps { sampleProcessor with
          component := WrappedNode.ref "Inner" "Inner" false }
        (ProcState.init Expr)).propsAsIs = true
    ∧ (getProps { sampleProcessor with
          component := WrappedNode.tag "FunctionalComponent" }
        (ProcState.init Expr)).propsAsIs = true := by
  refine ⟨by decide, by decide, by decide, by decide, rfl, rfl, by decide⟩

/-- C10: wrapping the compile-time constant string `"FunctionalComponent"`
is indistinguishable from wrapping an actual functional component: the
constructor produces the same descriptor for both, so the runtime wrapper's
tag argument is the empty arrow function (not a quoted string literal) and
`toString` renders `"() => {…}"` instead of the quoted tag name. -/
theorem C10_functional_component_sentinel (env : ResolveEnv) :
    resolveComponent env (TagOp.call TagOpArg.functionKind)
        = resolveComponent env (TagOp.call (TagOpArg.constStr "FunctionalComponent"))
    ∧ (resolveComponent env (TagOp.call (TagOpArg.constStr "FunctionalComponent"))).component
        = some (WrappedNode.tag "FunctionalComponent")
    ∧ tagExpressionArgument (WrappedNode.tag "FunctionalComponent")
        = Expr.arrowFnEmpty
    ∧ tagExpressionArgument (WrappedNode.tag "FunctionalComponent")
        ≠ Expr.singleQuotedStrLit "FunctionalComponent"
    ∧ (∀ s : String, s ≠ "FunctionalComponent" →
        tagExpressionArgument (WrappedNode.tag s) = Expr.singleQuotedStrLit s)
    ∧ toStringDescr "styled" (WrappedNode.tag "FunctionalComponent")
        = "styled(() => \x7b…\x7d)`…`" := by
  refine ⟨rfl, rfl, rfl, ?_, ?_, rfl⟩
  · intro h
    rw [tagExpressionArgument] at h
    simp at h
  · intro s hs
    simp [tagExpressionArgument, hs]

/-- Witness for C10 at its concrete tag. -/
theorem C10_functional_component_sentinel_witness :
    tagExpressionArgument (WrappedNode.tag "FunctionalComponent")
      = Expr.arrowFnEmpty :=
  (C10_functional_component_sentinel emptyEnv).2.2.1

/-- C4 counterexample: with an allow-mask declared by the imported package
and a failing module resolver, the single import source produces a warning
but is treated as NOT matching: the component is marked foreign
(`nonLinaria = true`, no dependency registered), refuting "defaults to
treating that import as in-scope (styled-aware)". -/
theorem C4_counterexample_resolution_failure :
    resolveComponent failingResolveEnv
        (TagOp.call (TagOpArg.importedKind "Button" "Button" ["ui-lib"]))
      = ⟨some (WrappedNode.ref "Button" "Button" true), ["ui-lib"], false⟩ := by
  decide

/-- C4 (amended): module-resolution failure while checking an allow-mask is
non-fatal — the constructor still yields a descriptor rather than failing the
build — and emits a warning, but the resolver treats that import source as
non-matching, so a sole failing import yields a foreign (non-styled-aware)
reference with no registered dependency. -/
theorem C4_amended_resolution_failure (env : ResolveEnv)
    (f pkg m ex src : String)
    (hpkg : env.pkgFor f = some pkg)
    (hmask : env.maskOf pkg = some m) (hm : m ≠ "")
    (hres : env.resolve f = none) :
    checkImportSource env f = (false, true)
    ∧ resolveComponent env (TagOp.call (TagOpArg.importedKind ex src [f]))
        = ⟨some (WrappedNode.ref ex src true), [f], false⟩ := by
  have hc : checkImportSource env f = (false, true) := by
    simp [checkImportSource, hpkg, hmask, hm, hres]
  refine ⟨hc, ?_⟩
  simp [resolveComponent, someMatched, hc]

/-- Witness for the amended C4 at the concrete failing environment. -/
theorem C4_amended_resolution_failure_witness :
    checkImportSource failingResolveEnv "ui-lib" = (false, true)
    ∧ resolveComponent failingResolveEnv
        (TagOp.call (TagOpArg.importedKind "Btn" "Btn" ["ui-lib"]))
        = ⟨some (WrappedNode.ref "Btn" "Btn" true), ["ui-lib"], false⟩ :=
  C4_amended_resolution_failure failingResolveEnv "ui-lib" "/lib/package.json"
    "dist/**" "Btn" "Btn" (by decide) (by decide) (by decide) rfl

/-! ### Chain-walk lemmas for `extractRules` -/

theorem walkChain_chainOf (heap : List (Nat × HeapObj)) :
    ∀ (fuel : Nat) (v : GraphVal) (sel : String) (cs : List String),
      chainOf heap fuel v = some cs →
      walkChain heap fuel v sel = some (sel ++ joinDots cs) := by
  intro fuel
  induction fuel with
  | zero => intro v sel cs h; exact absurd h (by simp [chainOf])
  | succ f ih =>
      intro v sel cs h
      simp only [chainOf] at h
      simp only [walkChain]
      cases hm : metaOf heap v with
      | none =>
          rw [hm] at h
          simp at h
          subst h
          simp [joinDots]
      | some p =>
          obtain ⟨cn, ext⟩ := p
          rw [hm] at h
          simp only [Option.map_eq_some'] at h
          obtain ⟨cs', hcs', rfl⟩ := h
          show walkChain heap f ext (sel ++ "." ++ cn)
              = some (sel ++ joinDots (cn :: cs'))
          rw [ih ext (sel ++ "." ++ cn) cs' hcs']
          simp [joinDots, String.append_assoc]

theorem walkChain_none_length (heap : List (Nat × HeapObj)) :
    ∀ (fuel : Nat) (v : GraphVal) (sel : String),
      walkChain heap fuel v sel = none → (chainRefs heap fuel v).length = fuel := by
  intro fuel
  induction fuel with
  | zero => intro v sel _; rfl
  | succ f ih =>
      intro v sel h
      simp only [walkChain] at h
      cases hm : metaOf heap v with
      | none => rw [hm] at h; exact absurd h (by simp)
      | some p =>
          obtain ⟨cn, ext⟩ := p
          rw [hm] at h
          cases v with
          | null => simp [metaOf] at hm
          | ref r =>
              have hm' : (heap.lookup r).bind (fun o => o.meta) = some (cn, ext) := hm
              simp only [chainRefs, hm', List.length_cons]
              rw [ih ext (sel ++ "." ++ cn) h]

theorem lookup_key_mem {α : Type} (heap : List (Nat × α)) (r : Nat)
    (h : (heap.lookup r).isSome) : r ∈ heap.map Prod.fst := by
  rw [List.lookup_isSome_iff] at h
  obtain ⟨p, hp, he⟩ := h
  have hr : r = p.1 := eq_of_beq he
  rw [hr]
  exact List.mem_map_of_mem Prod.fst hp

theorem chainRefs_mem_keys (heap : List (Nat × HeapObj)) :
    ∀ (fuel : Nat) (v : GraphVal) (x : Nat),
      x ∈ chainRefs heap fuel v → x ∈ heap.map Prod.fst := by
  intro fuel
  induction fuel with
  | zero => intro v x h; simp [chainRefs] at h
  | succ f ih =>
      intro v x h
      cases v with
      | null => simp [chainRefs] at h
      | ref r =>
          simp only [chainRefs] at h
          cases hm : (heap.lookup r).bind (fun o => o.meta) with
          | none => rw [hm] at h; simp at h
          | some p =>
              obtain ⟨cn, ext⟩ := p
              rw [hm] at h
              simp only [List.mem_cons] at h
              rcases h with rfl | h2
              · apply lookup_key_mem heap x
                cases hl : heap.lookup x with
                | none => rw [hl] at hm; simp at hm
                | some o => rfl
              · exact ih ext x h2

/-- C2: for a non-foreign component reference, `extractRules` walks the
evaluated value of the referenced identifier and appends `"." + className`
once per chain link, outer-to-inner, onto the selector `"." + className` of
this processor; in the concrete three-level chain `A` (class `a`),
`styled(A)` (class `b`), `styled(styled(A))` (class `c`), the outer rule's
selector is `".c.b.a"`. -/
theorem C2_selector_chain (p : Processor) (valueCache : String → GraphVal)
    (heap : List (Nat × HeapObj)) (cssText : String) (loc : Option (Nat × Nat))
    (nodeName src : String) (cs : List String)
    (hcomp : p.component = WrappedNode.ref nodeName src false)
    (hchain : chainOf heap (heap.length + 1) (valueCache nodeName) = some cs) :
    extractRules p valueCache heap cssText loc
      = some [("." ++ p.className ++ joinDots cs,
               ⟨cssText, p.className, p.displayName, loc⟩)]
    ∧ extractRules outerProcessorC chainCacheABC chainHeapABC "css" none
        = some [(".c.b.a", ⟨"css", "c", "StyledC", none⟩)] := by
  constructor
  · simp only [extractRules, hcomp, if_neg Bool.false_ne_true]
    rw [walkChain_chainOf heap (heap.length + 1) (valueCache nodeName)
      ("." ++ p.className) cs hchain]
    rfl
  · rfl

/-- Witness for C2 at the three-level chain. -/
theorem C2_selector_chain_witness :
    extractRules outerProcessorC chainCacheABC chainHeapABC "css" none
      = some [("." ++ outerProcessorC.className ++ joinDots ["b", "a"],
               ⟨"css", outerProcessorC.className, outerProcessorC.displayName,
                none⟩)] :=
  (C2_selector_chain outerProcessorC chainCacheABC chainHeapABC "css" none
    "B" "B" ["b", "a"] rfl (by decide)).1

/-- C9: whenever the extends-chain metadata reachable from the looked-up
value is acyclic, the chain walk of `extractRules` terminates (the fuel
`heap.length + 1` is never exhausted): by pigeonhole, a walk of
`heap.length + 1` steps would have to revisit a reference. -/
theorem C9_acyclic_chain_terminates (heap : List (Nat × HeapObj))
    (v : GraphVal) (hacyc : AcyclicChain heap v) (sel : String) :
    (walkChain heap (heap.length + 1) v sel).isSome = true := by
  cases hw : walkChain heap (heap.length + 1) v sel with
  | some s => rfl
  | none =>
      exfalso
      have hlen := walkChain_none_length heap (heap.length + 1) v sel hw
      have hnd : (chainRefs heap (heap.length + 1) v).Nodup := hacyc
      have hsub : chainRefs heap (heap.length + 1) v ⊆ heap.map Prod.fst :=
        fun x hx => chainRefs_mem_keys heap (heap.length + 1) v x hx
      have hle := (List.subperm_of_subset hnd hsub).length_le
      rw [hlen, List.length_map] at hle
      omega

/-- Witness for C9 at the concrete acyclic two-object heap. -/
theorem C9_acyclic_chain_terminates_witness :
    (walkChain chainHeapABC (chainHeapABC.length + 1) (GraphVal.ref 1)
        ".c").isSome = true :=
  C9_acyclic_chain_terminates chainHeapABC (GraphVal.ref 1)
    (by decide : (chainRefs chainHeapABC (chainHeapABC.length + 1)
        (GraphVal.ref 1)).Nodup) ".c"

/-- C6: the interpolation validator accepts exactly functions, strings,
finite numbers and values the external serializable predicate recognizes;
`NaN` and `Infinity` are rejected as invalid interpolations (stringified in
the message), `42` and a plain string are accepted, and a non-number value
carrying truthy `message` and `stack` fields is rejected as an evaluation
error whose message includes the underlying message. -/
theorem C6_validator (ser : JSValue → Bool) (v : JSValue)
    (fields : List (String × JSValue)) (msg sv : String)
    (hnan : ser (JSValue.num JSNum.nan) = false)
    (hinf : ser (JSValue.num (JSNum.inf true)) = false)
    (herr : ser (JSValue.obj fields) = false)
    (hmsg : fields.lookup "message" = some (JSValue.str msg)) (hm : msg ≠ "")
    (hstk : fields.lookup "stack" = some (JSValue.str sv)) (hs : sv ≠ "") :
    (throwIfInvalid ser v = ValidationResult.ok ↔
        (jsTypeof v = "function" ∨ jsTypeof v = "string" ∨
         (jsTypeof v = "number" ∧ numIsFinite v = true) ∨ ser v = true))
    ∧ throwIfInvalid ser (JSValue.num JSNum.nan)
        = ValidationResult.invalidInterpolationError "NaN"
    ∧ throwIfInvalid ser (JSValue.num (JSNum.inf true))
        = ValidationResult.invalidInterpolationError "Infinity"
    ∧ throwIfInvalid ser (JSValue.num (JSNum.finite 42)) = ValidationResult.ok
    ∧ throwIfInvalid ser (JSValue.str "red") = ValidationResult.ok
    ∧ throwIfInvalid ser JSValue.func = ValidationResult.ok
    ∧ throwIfInvalid ser (JSValue.obj fields)
        = ValidationResult.evaluationError (evalErrorText msg) := by
  refine ⟨?_, ?_, ?_, ?_, ?_, ?_, ?_⟩
  · by_cases hc : (jsTypeof v = "function" ∨ jsTypeof v = "string" ∨
        (jsTypeof v = "number" ∧ numIsFinite v = true) ∨ ser v = true)
    · simp [throwIfInvalid, hc]
    · simp only [throwIfInvalid, if_neg hc]
      constructor
      · intro h
        split at h <;> simp at h
      · intro h; exact absurd h hc
  · simp [throwIfInvalid, jsTypeof, numIsFinite, hnan, truthy, jsToString]
  · simp [throwIfInvalid, jsTypeof, numIsFinite, hinf, truthy, jsToString]
  · simp [throwIfInvalid, jsTypeof, numIsFinite]
  · simp [throwIfInvalid, jsTypeof]
  · simp [throwIfInvalid, jsTypeof]
  · simp [throwIfInvalid, jsTypeof, numIsFinite, herr, truthy, getProp,
      hmsg, hstk, hm, hs, jsToString]

/-- Witness for C6 with a concrete serializable predicate and error-like
object. -/
theorem C6_validator_witness :
    throwIfInvalid (fun _ => false) (JSValue.num JSNum.nan)
      = ValidationResult.invalidInterpolationError "NaN" :=
  (C6_validator (fun _ => false) JSValue.nullV
      [("message", JSValue.str "boom"), ("stack", JSValue.str "at x")]
      "boom" "at x" rfl rfl rfl rfl (by decide) rfl (by decide)).2.1

end Styled
